import Mathlib

/-!
# Verification of the rep-cli traffic store

A shallow embedding, in Lean 4, of the core of the `rep-cli` repository:
the request model with stable fingerprinting (`internal/store/hash.go`,
`internal/store/types.go`), header normalization (`internal/store/headers.go`),
the persistent store with its load-time migration and filter engine
(`internal/store/store.go`), the live-buffer native-messaging host
(`cmd/host/main.go`), and causal chain reconstruction (`cmd/chain.go`).

Go slices and maps are modelled as Lean lists (maps as insertion-ordered
association lists, which is faithful for the membership and fold operations
the code performs); Go `int`/`int64` are modelled as `Int`; JSON values are
modelled by the inductive `JVal`; behaviour of the external libraries the
code calls (`crypto/sha256`, `encoding/json`, `net/url`, `regexp`) is
embedded where the claims depend on it: SHA-256 is implemented in full,
`encoding/json` decoding is modelled field-by-field for the concrete struct
types involved, `net/url.Parse` is modelled on the absolute-URL shapes the
program handles, and a compiled URL pattern (regex or the lowercase
substring fallback) is abstracted as a boolean function on the URL, so all
pattern theorems hold for every matcher including the real one.

Go `nil` pointer guards (`req == nil`) are dropped: Lean structure values
cannot be nil, and every call site in the repository passes a non-nil
request.
-/

set_option maxHeartbeats 1000000
set_option maxRecDepth 2000

namespace RepCli

/-! ## Header map (internal/store/headers.go)

`HeaderMap` is Go's `map[string][]string`, modelled as an insertion-ordered
association list. -/

/-- Go `type HeaderMap map[string][]string` (headers.go). -/
abbrev HeaderMap := List (String × List String)

/-- Go `type HeaderKV struct { Name, Value string }` (headers.go). -/
structure HeaderKV where
  name : String := ""
  value : String := ""
deriving Repr, DecidableEq

/-! ## Request model (internal/store/types.go) -/

/-- Go `type Response struct` (types.go): status code, headers, body. -/
structure Response where
  status : Int := 0
  headers : HeaderMap := []
  body : String := ""
deriving Repr, DecidableEq

/-- Go `type Request struct` (types.go).  `domain` and `path` are the
computed fields (json:"-"), zero-valued until a store derives them. -/
structure Request where
  id : String := ""
  originalID : String := ""
  method : String := ""
  url : String := ""
  pageURL : String := ""
  resourceType : String := ""
  initiator : String := ""
  headers : HeaderMap := []
  body : String := ""
  response : Option Response := none
  responseEncoding : String := ""
  timestamp : Int := 0
  domain : String := ""
  path : String := ""
deriving Repr, DecidableEq

/-- Go `type Session struct` (types.go). -/
structure Session where
  id : String := ""
  timestamp : Int := 0
  note : String := ""
  requests : List Request := []
deriving Repr, DecidableEq

/-- Go `type Store struct` (types.go).  The two `map[string]bool` domain
sets are modelled as the lists of their `true` keys; `requests` and
`lastImport` are the legacy migration fields. -/
structure Store where
  sessions : List Session := []
  ignoredDomains : List String := []
  primaryDomains : List String := []
  requests : List Request := []
  lastImport : Int := 0
deriving Repr

/-! ## SHA-256 (the `crypto/sha256` library used by hash.go)

A direct implementation over `Nat` with explicit reduction mod `2^32`. -/

/-- Truncate to a 32-bit word. -/
def w32 (n : Nat) : Nat := n % 4294967296

/-- 32-bit rotate right. -/
def rotr (n x : Nat) : Nat := w32 ((x >>> n) ||| (x <<< (32 - n)))

def shaCh (x y z : Nat) : Nat := (x &&& y) ^^^ ((x ^^^ 4294967295) &&& z)

def shaMaj (x y z : Nat) : Nat := (x &&& y) ^^^ (x &&& z) ^^^ (y &&& z)

def bigSigma0 (x : Nat) : Nat := rotr 2 x ^^^ rotr 13 x ^^^ rotr 22 x

def bigSigma1 (x : Nat) : Nat := rotr 6 x ^^^ rotr 11 x ^^^ rotr 25 x

def smallSigma0 (x : Nat) : Nat := rotr 7 x ^^^ rotr 18 x ^^^ (x >>> 3)

def smallSigma1 (x : Nat) : Nat := rotr 17 x ^^^ rotr 19 x ^^^ (x >>> 10)

/-- The 64 SHA-256 round constants (FIPS 180-4), written in decimal. -/
def K256 : List Nat :=
  [1116352408, 1899447441, 3049323471, 3921009573, 961987163, 1508970993,
   2453635748, 2870763221, 3624381080, 310598401, 607225278, 1426881987,
   1925078388, 2162078206, 2614888103, 3248222580, 3835390401, 4022224774,
   264347078, 604807628, 770255983, 1249150122, 1555081692, 1996064986,
   2554220882, 2821834349, 2952996808, 3210313671, 3336571891, 3584528711,
   113926993, 338241895, 666307205, 773529912, 1294757372, 1396182291,
   1695183700, 1986661051, 2177026350, 2456956037, 2730485921, 2820302411,
   3259730800, 3345764771, 3516065817, 3600352804, 4094571909, 275423344,
   430227734, 506948616, 659060556, 883997877, 958139571, 1322822218,
   1537002063, 1747873779, 1955562222, 2024104815, 2227730452, 2361852424,
   2428436474, 2756734187, 3204031479, 3329325298]

/-- The eight SHA-256 initial hash words (FIPS 180-4), in decimal. -/
def H256 : List Nat :=
  [1779033703, 3144134277, 1013904242, 2773480762,
   1359893119, 2600822924, 528734635, 1541459225]

/-- Big-endian byte expansion: `k` bytes of `n`, most significant first. -/
def bytesBE (k n : Nat) : List Nat :=
  (List.range k).map (fun i => (n >>> (8 * (k - 1 - i))) % 256)

/-- SHA-256 message padding: `0x80`, zeros, then the 64-bit bit length. -/
def sha256Pad (msg : List Nat) : List Nat :=
  let padZeros := (64 - ((msg.length + 9) % 64)) % 64
  msg ++ [128] ++ List.replicate padZeros 0 ++ bytesBE 8 (msg.length * 8)

/-- Split a byte list into 64-byte chunks. -/
def chunks64 (l : List Nat) : List (List Nat) :=
  match l with
  | [] => []
  | x :: xs => (x :: xs).take 64 :: chunks64 ((x :: xs).drop 64)
termination_by l.length
decreasing_by simp [List.length_drop]; omega

/-- Pack bytes into big-endian 32-bit words. -/
def bytesToWords : List Nat → List Nat
  | b0 :: b1 :: b2 :: b3 :: rest =>
      (((b0 * 256 + b1) * 256 + b2) * 256 + b3) :: bytesToWords rest
  | _ => []

/-- One extension step of the SHA-256 message schedule. -/
def schedExtend (w : List Nat) : Nat :=
  w32 (smallSigma1 (w.getD (w.length - 2) 0) + w.getD (w.length - 7) 0 +
       smallSigma0 (w.getD (w.length - 15) 0) + w.getD (w.length - 16) 0)

/-- Extend 16 message words to the 64-entry schedule. -/
def schedule (w16 : List Nat) : List Nat :=
  (List.range 48).foldl (fun w _ => w ++ [schedExtend w]) w16

/-- One SHA-256 compression round on the state `[a,b,c,d,e,f,g,h]`. -/
def shaStep (s : List Nat) (kw : Nat × Nat) : List Nat :=
  let a := s.getD 0 0
  let b := s.getD 1 0
  let c := s.getD 2 0
  let d := s.getD 3 0
  let e := s.getD 4 0
  let f := s.getD 5 0
  let g := s.getD 6 0
  let h := s.getD 7 0
  let t1 := w32 (h + bigSigma1 e + shaCh e f g + kw.1 + kw.2)
  let t2 := w32 (bigSigma0 a + shaMaj a b c)
  [w32 (t1 + t2), a, b, c, w32 (d + t1), e, f, g]

/-- Compress one 64-byte block into the running hash state. -/
def sha256Block (h : List Nat) (block : List Nat) : List Nat :=
  let w := schedule (bytesToWords block)
  let fin := (K256.zip w).foldl shaStep h
  (h.zip fin).map (fun p => w32 (p.1 + p.2))

/-- SHA-256 of a byte sequence, as the 32 digest bytes. -/
def sha256Bytes (msg : List Nat) : List Nat :=
  let hs := (chunks64 (sha256Pad msg)).foldl sha256Block H256
  hs.foldr (fun h acc => bytesBE 4 h ++ acc) []

/-- Lowercase hex digit (Go's `%x` formatting). -/
def hexDigit (n : Nat) : Char :=
  if n < 10 then Char.ofNat (48 + n) else Char.ofNat (87 + n)

/-- Two lowercase hex digits of one byte. -/
def byteToHex (b : Nat) : String :=
  String.mk [hexDigit (b / 16), hexDigit (b % 16)]

/-- The UTF-8 bytes of a string. -/
def strBytes (s : String) : List Nat :=
  s.toUTF8.toList.map (fun b => b.toNat)

/-- Lowercase-hex SHA-256 of a string: `fmt.Sprintf("%x", sha256.Sum256(...))`. -/
def sha256Hex (s : String) : String :=
  String.join ((sha256Bytes (strBytes s)).map byteToHex)

/-! ## Fingerprinting (internal/store/hash.go) -/

/-- hash.go `RequestHash`: SHA-256 over `"%s|%s|%s|%d"` of
(method, URL, body, timestamp). -/
def RequestHash (req : Request) : String :=
  sha256Hex (req.method ++ "|" ++ req.url ++ "|" ++ req.body ++ "|" ++ toString req.timestamp)

/-- Model of `strings.HasPrefix` (byte-level prefix; equivalent to
char-list prefix for the ASCII marker compared here). -/
def goHasPre (s pre : String) : Bool := pre.toList.isPrefixOf s.toList

/-- hash.go `isStableID`: an ID is stable when non-empty and either an
original ID accompanies it or it carries the `"h_"` marker. -/
def isStableID (req : Request) : Bool :=
  if req.id = "" then false
  else if req.originalID ≠ "" then true
  else goHasPre req.id "h_"

/-- hash.go `RequestFingerprint`: the stable ID when available, else the
content hash. -/
def RequestFingerprint (req : Request) : String :=
  if isStableID req then req.id else RequestHash req

/-! ## URL parsing (the `net/url.Parse` library call)

A model of `net/url.Parse` restricted to the URL shapes this program
handles: absolute `scheme://host[/path][?query][#fragment]` URLs,
protocol-relative `//host/...` URLs, and plain relative paths without a
colon.  Parsing fails (`none`) on ASCII control characters and invalid
percent escapes in host or path, as in Go; strings outside the modelled
shapes (e.g. opaque `scheme:data` URLs, for which Go reports empty host
and path anyway) are also treated as failures.  Percent-unescaping of the
path is not modelled: the claims compare the two path derivations of the
same parse result, which is insensitive to it. -/

/-- The host and path components and the raw query of a parsed URL. -/
structure URLParts where
  host : String := ""
  path : String := ""
  rawQuery : String := ""
deriving Repr, DecidableEq

def isHexDigitCh (c : Char) : Bool :=
  c.isDigit || (decide ('a' ≤ c) && decide (c ≤ 'f')) || (decide ('A' ≤ c) && decide (c ≤ 'F'))

/-- Every `%` begins a two-hex-digit escape. -/
def validEscapes : List Char → Bool
  | [] => true
  | '%' :: a :: b :: rest => isHexDigitCh a && isHexDigitCh b && validEscapes rest
  | '%' :: _ => false
  | _ :: rest => validEscapes rest

def isSchemeChar (c : Char) : Bool :=
  c.isAlphanum || c == '+' || c == '-' || c == '.'

/-- Go scheme syntax: a letter followed by letters, digits, `+`, `-`, `.`. -/
def validScheme (s : String) : Bool :=
  match s.toList with
  | [] => false
  | c :: rest => c.isAlpha && rest.all isSchemeChar

/-- Split at the first occurrence of a character; `none` if absent. -/
def splitOnceChar (cs : List Char) (c : Char) : List Char × Option (List Char) :=
  match cs with
  | [] => ([], none)
  | x :: rest =>
    if x = c then ([], some rest)
    else
      let p := splitOnceChar rest c
      (x :: p.1, p.2)

/-- Split `host[/path][?query]` into its parts, validating escapes. -/
def parseAuthority (cs : List Char) : Option URLParts :=
  let q := splitOnceChar cs '?'
  let query := (q.2.getD []).asString
  let hp := splitOnceChar q.1 '/'
  let path :=
    match hp.2 with
    | none => ""
    | some p => ('/' :: p).asString
  if validEscapes hp.1 && validEscapes path.toList then
    some { host := hp.1.asString, path := path, rawQuery := query }
  else none

/-- Split at the first `"://"`; `none` if absent. -/
def splitSchemeSep : List Char → Option (List Char × List Char)
  | [] => none
  | ':' :: '/' :: '/' :: rest => some ([], rest)
  | c :: rest =>
    match splitSchemeSep rest with
    | some p => some (c :: p.1, p.2)
    | none => none

/-- Model of `net/url.Parse` (see the section comment for its scope). -/
def urlParse (s : String) : Option URLParts :=
  let cs := s.toList
  if cs.any (fun c => c.toNat < 32 || c.toNat == 127) then none
  else
    let noFrag := (splitOnceChar cs '#').1
    match noFrag with
    | '/' :: '/' :: rest => parseAuthority rest
    | _ =>
      match splitSchemeSep noFrag with
      | some p =>
        if validScheme p.1.asString then parseAuthority p.2 else none
      | none =>
        if noFrag.contains ':' then none
        else
          let q := splitOnceChar noFrag '?'
          if validEscapes q.1 then
            some { host := "", path := q.1.asString, rawQuery := (q.2.getD []).asString }
          else none

/-! ## Field derivation and store construction (internal/store/store.go) -/

/-- store.go `ComputeRequestFields`: domain = host, path = URL path with
`?query` appended when a query is present; parse failure leaves the
request untouched. -/
def ComputeRequestFields (req : Request) : Request :=
  match urlParse req.url with
  | some u =>
    { req with domain := u.host,
               path := u.path ++ (if u.rawQuery ≠ "" then "?" ++ u.rawQuery else "") }
  | none => req

/-- The per-request field derivation inlined in store.go `NewTempStore`:
domain = host, path = URL path only (no query suffix). -/
def tempComputeFields (req : Request) : Request :=
  match urlParse req.url with
  | some u => { req with domain := u.host, path := u.path }
  | none => req

/-- store.go `NewTempStore`: a transient store over an in-memory request
list, with domain/path derived per request. -/
def NewTempStore (requests : List Request) : Store :=
  { sessions := [], ignoredDomains := [], primaryDomains := [],
    requests := requests.map tempComputeFields, lastImport := 0 }

/-- The legacy-format migration inside store.go `Load` (lines 157-172):
when legacy requests exist and no sessions do, synthesize one
`migrated-<today>` session and clear the legacy fields.  `today` is
`time.Now().Format("20060102")` and `now` is `time.Now().UnixMilli()`. -/
def migrateStore (today : String) (now : Int) (st : Store) : Store :=
  if st.requests.length > 0 ∧ st.sessions.length = 0 then
    { st with
      sessions := [{ id := "migrated-" ++ today, timestamp := now,
                     note := "Auto-migrated from old format",
                     requests := st.requests.map ComputeRequestFields }],
      requests := [], lastImport := 0 }
  else st

/-- The post-parse normalization of store.go `Load`: migrate the legacy
format, then recompute domain/path for every session request.  The file
read and JSON parse that precede it are outside this function; `st` is the
parsed store value (absent maps already replaced by empty ones, which the
list model makes implicit). -/
def loadStore (today : String) (now : Int) (st : Store) : Store :=
  let st1 := migrateStore today now st
  { st1 with
    sessions := st1.sessions.map fun s =>
      { s with requests := s.requests.map ComputeRequestFields } }

/-- store.go `AddSession`: derive fields for every request and append a new
session. -/
def AddSession (st : Store) (id note : String) (now : Int) (requests : List Request) : Store :=
  { st with
    sessions := st.sessions ++
      [{ id := id, timestamp := now, note := note,
         requests := requests.map ComputeRequestFields }] }

/-! ## Filter engine (store.go `Store.Filter`) -/

/-- The code point of a character with an ASCII uppercase letter lowered. -/
def lowerCode (c : Char) : Nat :=
  if 65 ≤ c.toNat ∧ c.toNat ≤ 90 then c.toNat + 32 else c.toNat

/-- Model of `strings.EqualFold` (exact for the ASCII strings compared
here; non-ASCII characters are compared by code point). -/
def eqFold (a b : String) : Bool := a.toList.map lowerCode == b.toList.map lowerCode

/-- store.go `FilterOptions`.  `pattern` abstracts the compiled URL
matcher: `none` is an empty (whitespace-only) pattern, `some f` is the
matcher the code precompiles — `regexp.MatchString` when the pattern
compiles, the case-insensitive substring test otherwise.  All theorems
about it hold for every such `f`. -/
structure FilterOptions where
  domain : String := ""
  domains : List String := []
  method : String := ""
  methods : List String := []
  status : Int := 0
  statusRange : String := ""
  statusRanges : List String := []
  resourceTypes : List String := []
  pattern : Option (String → Bool) := none
  excludeIgnored : Bool := false
  primaryOnly : Bool := false
  limit : Int := 0
  offset : Int := 0

/-- The singular `StatusRange` switch: a request passes unless a
recognized range excludes its status (unknown range strings match
no case and exclude nothing). -/
def statusRangeOK (sr : String) (status : Int) : Bool :=
  match sr with
  | "2xx" => decide (200 ≤ status ∧ status < 300)
  | "3xx" => decide (300 ≤ status ∧ status < 400)
  | "4xx" => decide (400 ≤ status ∧ status < 500)
  | "5xx" => decide (500 ≤ status ∧ status < 600)
  | _ => true

/-- One entry of the `StatusRanges` set: an unrecognized range string
matches nothing. -/
def statusRangeHit (sr : String) (status : Int) : Bool :=
  match sr with
  | "2xx" => decide (200 ≤ status ∧ status < 300)
  | "3xx" => decide (300 ≤ status ∧ status < 400)
  | "4xx" => decide (400 ≤ status ∧ status < 500)
  | "5xx" => decide (500 ≤ status ∧ status < 600)
  | _ => false

/-- The conjunction of the per-request checks of store.go `Store.Filter`,
in the code's order; a `continue` in the loop is a `false` here. -/
def reqMatches (st : Store) (opts : FilterOptions) (req : Request) : Bool :=
  !(opts.excludeIgnored && st.ignoredDomains.contains req.domain) &&
  !(opts.primaryOnly && !(st.primaryDomains.contains req.domain)) &&
  (opts.domain == "" || eqFold req.domain opts.domain) &&
  (opts.domains.isEmpty || opts.domains.any (fun d => eqFold req.domain d)) &&
  (opts.method == "" || eqFold req.method opts.method) &&
  (opts.methods.isEmpty || opts.methods.any (fun m => eqFold req.method m)) &&
  (opts.status == 0 ||
    (match req.response with
     | some resp => resp.status == opts.status
     | none => false)) &&
  (opts.statusRange == "" ||
    (match req.response with
     | some resp => statusRangeOK opts.statusRange resp.status
     | none => true)) &&
  (opts.statusRanges.isEmpty ||
    (match req.response with
     | some resp => opts.statusRanges.any (fun sr => statusRangeHit sr resp.status)
     | none => true)) &&
  (opts.resourceTypes.isEmpty || opts.resourceTypes.any (fun rt => eqFold req.resourceType rt)) &&
  (match opts.pattern with
   | none => true
   | some f => f req.url)

/-- The collection loop of `Store.Filter`: `off` is the remaining offset
(decremented per match before collection starts), `cnt` the number
collected so far; collection stops once `limit > 0` matches are kept. -/
def filterLoop (keep : Request → Bool) (limit : Int) :
    List Request → Int → Nat → List Request
  | [], _, _ => []
  | req :: rest, off, cnt =>
    if keep req then
      if 0 < off then filterLoop keep limit rest (off - 1) cnt
      else if 0 < limit ∧ limit ≤ (cnt : Int) + 1 then [req]
      else req :: filterLoop keep limit rest off (cnt + 1)
    else filterLoop keep limit rest off cnt

/-- store.go `Store.Filter`. -/
def Store.Filter (st : Store) (opts : FilterOptions) : List Request :=
  filterLoop (reqMatches st opts) opts.limit st.requests opts.offset 0

/-! ## Chain reconstruction (cmd/chain.go) -/

/-- chain.go `ChainLink`. -/
structure ChainLink where
  id : String := ""
  method : String := ""
  url : String := ""
  status : Int := 0
  initiator : String := ""
  resourceType : String := ""
deriving Repr, DecidableEq

/-- chain.go `RequestChain`. -/
structure RequestChain where
  pageURL : String := ""
  links : List ChainLink := []
deriving Repr, DecidableEq

/-- The chain link built from a request inside `buildChainForRequest`. -/
def linkOf (req : Request) : ChainLink :=
  { id := req.id, method := req.method, url := req.url,
    status := match req.response with | some resp => resp.status | none => 0,
    initiator := req.initiator, resourceType := req.resourceType }

/-- The synthesized terminal root link (initiator URL only, no ID). -/
def rootLink (initiatorURL : String) : ChainLink :=
  { url := initiatorURL, method := "→" }

/-- chain.go `findRequestByURL`: first request (in unfiltered `Filter`
order) whose URL equals the target. -/
def findRequestByURL (st : Store) (targetURL : String) : Option Request :=
  (Store.Filter st {}).find? (fun r => r.url == targetURL)

/-- The walk of chain.go `buildChainForRequest`, with an explicit fuel
counting loop iterations (the Go loop has none; the termination theorem
shows the fuel spent never exceeds the number of distinct IDs plus one).
Returns `none` only on fuel exhaustion. -/
def buildChainLoop (st : Store) :
    Nat → List String → Request → List ChainLink → Option (List ChainLink)
  | 0, _, _, _ => none
  | fuel + 1, visited, current, links =>
    if visited.contains current.id then some links
    else
      let visited1 := current.id :: visited
      let links1 := linkOf current :: links
      if current.initiator = "" then some links1
      else
        match findRequestByURL st current.initiator with
        | none => some (rootLink current.initiator :: links1)
        | some parent =>
          if parent.id = current.id then some (rootLink current.initiator :: links1)
          else buildChainLoop st fuel visited1 parent links1

/-- The distinct request IDs of a store's request collection. -/
def distinctIDs (st : Store) : List String :=
  (st.requests.map (fun r => r.id)).dedup

/-- chain.go `buildChainForRequest`, run with fuel the termination theorem
proves sufficient. -/
def buildChainForRequest (st : Store) (req : Request) : RequestChain :=
  { pageURL := req.pageURL,
    links := (buildChainLoop st ((distinctIDs st).length + 2) [] req []).getD [] }

/-! ## JSON values and `encoding/json` decoding

`JVal` models a parsed JSON document.  The decoders below model Go's
`encoding/json` unmarshalling for the concrete types the code uses,
including its `null` conventions: `null` sets maps, slices and pointers to
nil and leaves strings and numbers unchanged, and objects decode into
structs by case-insensitive field-name match, ignoring unknown fields. -/

inductive JVal where
  | null
  | bool (b : Bool)
  | num (n : Int)
  | str (s : String)
  | arr (elems : List JVal)
  | obj (fields : List (String × JVal))
deriving Repr

/-- Replace the binding of `k` (or append it) in an association list,
modelling assignment into a Go map. -/
def assocSet {α : Type} (m : List (String × α)) (k : String) (v : α) :
    List (String × α) :=
  match m with
  | [] => [(k, v)]
  | (k1, v1) :: rest =>
    if k1 = k then (k, v) :: rest else (k1, v1) :: assocSet rest k v

/-- Append a value to the binding of `k` (creating it if absent),
modelling `m[k] = append(m[k], v)`. -/
def assocAppend (m : HeaderMap) (k : String) (v : String) : HeaderMap :=
  match m with
  | [] => [(k, [v])]
  | (k1, vs) :: rest =>
    if k1 = k then (k, vs ++ [v]) :: rest else (k1, vs) :: assocAppend rest k v

/-- Elements of a JSON array into Go strings (`null` leaves the fresh
zero-value string). -/
def decodeStrElems : List JVal → Option (List String)
  | [] => some []
  | .str s :: rest => (decodeStrElems rest).map (fun t => s :: t)
  | .null :: rest => (decodeStrElems rest).map (fun t => "" :: t)
  | _ => none

/-- A JSON value into Go `[]string` (`null` gives the nil slice). -/
def decodeStringList : JVal → Option (List String)
  | .null => some []
  | .arr xs => decodeStrElems xs
  | _ => none

/-- A JSON value into a fresh Go map value of type `string`
(`null` leaves the zero value). -/
def decodeStringVal : JVal → Option String
  | .str s => some s
  | .null => some ""
  | _ => none

/-- Object fields into `map[string][]string`, later keys overwriting. -/
def decodeMultiFields : List (String × JVal) → HeaderMap → Option HeaderMap
  | [], acc => some acc
  | (k, v) :: rest, acc =>
    match decodeStringList v with
    | some vs => decodeMultiFields rest (assocSet acc k vs)
    | none => none

/-- `json.Unmarshal` into `map[string][]string`. -/
def decodeMulti : JVal → Option HeaderMap
  | .null => some []
  | .obj fields => decodeMultiFields fields []
  | _ => none

/-- Object fields into `map[string]string`, later keys overwriting. -/
def decodeSingleFields :
    List (String × JVal) → List (String × String) → Option (List (String × String))
  | [], acc => some acc
  | (k, v) :: rest, acc =>
    match decodeStringVal v with
    | some s => decodeSingleFields rest (assocSet acc k s)
    | none => none

/-- `json.Unmarshal` into `map[string]string`. -/
def decodeSingle : JVal → Option (List (String × String))
  | .null => some []
  | .obj fields => decodeSingleFields fields []
  | _ => none

/-- The conversion loop of `UnmarshalJSON`'s second branch:
`converted[k] = []string{v}`. -/
def singleToMulti (m : List (String × String)) : HeaderMap :=
  m.map (fun p => (p.1, [p.2]))

/-- Object fields into a `HeaderKV` struct: case-insensitive field-name
match, `null` a no-op, unknown fields ignored. -/
def decodeKVFields : List (String × JVal) → HeaderKV → Option HeaderKV
  | [], acc => some acc
  | (k, v) :: rest, acc =>
    if eqFold k "name" then
      match v with
      | .null => decodeKVFields rest acc
      | .str s => decodeKVFields rest { acc with name := s }
      | _ => none
    else if eqFold k "value" then
      match v with
      | .null => decodeKVFields rest acc
      | .str s => decodeKVFields rest { acc with value := s }
      | _ => none
    else decodeKVFields rest acc

/-- Elements of a JSON array into `HeaderKV` structs. -/
def decodeKVElems : List JVal → Option (List HeaderKV)
  | [] => some []
  | v :: rest =>
    match
      (match v with
       | .null => some ({} : HeaderKV)
       | .obj fields => decodeKVFields fields {}
       | _ => none) with
    | some kv => (decodeKVElems rest).map (fun t => kv :: t)
    | none => none

/-- `json.Unmarshal` into `[]HeaderKV`. -/
def decodeKVList : JVal → Option (List HeaderKV)
  | .null => some []
  | .arr xs => decodeKVElems xs
  | _ => none

/-- The conversion loop of `UnmarshalJSON`'s third branch: skip empty
names, append values per name. -/
def kvListToMap : List HeaderKV → HeaderMap → HeaderMap
  | [], acc => acc
  | item :: rest, acc =>
    if item.name = "" then kvListToMap rest acc
    else kvListToMap rest (assocAppend acc item.name item.value)

/-- headers.go `HeaderMap.UnmarshalJSON`: the explicit `null` check, then
the three wire encodings in the code's order — `map[string][]string`,
`map[string]string`, `[]HeaderKV` — succeeding on the first that parses. -/
def headerMapUnmarshal : JVal → Option HeaderMap
  | .null => some []
  | j =>
    match decodeMulti j with
    | some m => some m
    | none =>
      match decodeSingle j with
      | some m => some (singleToMulti m)
      | none =>
        match decodeKVList j with
        | some list => some (kvListToMap list [])
        | none => none

/-- The unmarshalling order as the spec words it (single-value map first,
then multi-value map, then the pair list), written from the spec for
comparison with `headerMapUnmarshal`. -/
def headerMapUnmarshalSpecOrder (j : JVal) : Option HeaderMap :=
  match decodeSingle j with
  | some m => some (singleToMulti m)
  | none =>
    match decodeMulti j with
    | some m => some m
    | none =>
      match decodeKVList j with
      | some list => some (kvListToMap list [])
      | none => none

/-- `json.Marshal` of a `map[string][]string`: an object whose values are
arrays of strings. -/
def headerMapToJson (m : HeaderMap) : JVal :=
  .obj (m.map (fun p => (p.1, .arr (p.2.map .str))))

/-! ## Live snapshot decoding and the native-messaging host
(cmd/host/main.go) -/

/-- cmd/host/main.go `LiveData` (the snapshot file format). -/
structure LiveData where
  version : String := ""
  exportedAt : String := ""
  sessionID : String := ""
  requests : List Request := []
deriving Repr, DecidableEq

/-- A string struct field: `null` keeps the current value. -/
def decodeStrField (v : JVal) (cur : String) : Option String :=
  match v with
  | .null => some cur
  | .str s => some s
  | _ => none

/-- Object fields into a `Response` struct. -/
def decodeResponseFields : List (String × JVal) → Response → Option Response
  | [], acc => some acc
  | (k, v) :: rest, acc =>
    if eqFold k "status" then
      match v with
      | .null => decodeResponseFields rest acc
      | .num n => decodeResponseFields rest { acc with status := n }
      | _ => none
    else if eqFold k "headers" then
      match headerMapUnmarshal v with
      | some hm => decodeResponseFields rest { acc with headers := hm }
      | none => none
    else if eqFold k "body" then
      match decodeStrField v acc.body with
      | some s => decodeResponseFields rest { acc with body := s }
      | none => none
    else decodeResponseFields rest acc

/-- Object fields into a `Request` struct (the host's `Request` has the
same JSON shape as the store's). -/
def decodeRequestFields : List (String × JVal) → Request → Option Request
  | [], acc => some acc
  | (k, v) :: rest, acc =>
    if eqFold k "id" then
      match decodeStrField v acc.id with
      | some s => decodeRequestFields rest { acc with id := s }
      | none => none
    else if eqFold k "original_id" then
      match decodeStrField v acc.originalID with
      | some s => decodeRequestFields rest { acc with originalID := s }
      | none => none
    else if eqFold k "method" then
      match decodeStrField v acc.method with
      | some s => decodeRequestFields rest { acc with method := s }
      | none => none
    else if eqFold k "url" then
      match decodeStrField v acc.url with
      | some s => decodeRequestFields rest { acc with url := s }
      | none => none
    else if eqFold k "page_url" then
      match decodeStrField v acc.pageURL with
      | some s => decodeRequestFields rest { acc with pageURL := s }
      | none => none
    else if eqFold k "resource_type" then
      match decodeStrField v acc.resourceType with
      | some s => decodeRequestFields rest { acc with resourceType := s }
      | none => none
    else if eqFold k "initiator" then
      match decodeStrField v acc.initiator with
      | some s => decodeRequestFields rest { acc with initiator := s }
      | none => none
    else if eqFold k "headers" then
      match headerMapUnmarshal v with
      | some hm => decodeRequestFields rest { acc with headers := hm }
      | none => none
    else if eqFold k "body" then
      match decodeStrField v acc.body with
      | some s => decodeRequestFields rest { acc with body := s }
      | none => none
    else if eqFold k "response" then
      match v with
      | .null => decodeRequestFields rest { acc with response := none }
      | .obj fields2 =>
        match decodeResponseFields fields2 {} with
        | some resp => decodeRequestFields rest { acc with response := some resp }
        | none => none
      | _ => none
    else if eqFold k "response_encoding" then
      match decodeStrField v acc.responseEncoding with
      | some s => decodeRequestFields rest { acc with responseEncoding := s }
      | none => none
    else if eqFold k "timestamp" then
      match v with
      | .null => decodeRequestFields rest acc
      | .num n => decodeRequestFields rest { acc with timestamp := n }
      | _ => none
    else decodeRequestFields rest acc

/-- Elements of a JSON array into `Request` structs (`null` gives the zero
struct). -/
def decodeRequestElems : List JVal → Option (List Request)
  | [] => some []
  | v :: rest =>
    match
      (match v with
       | .null => some ({} : Request)
       | .obj fields => decodeRequestFields fields {}
       | _ => none) with
    | some r => (decodeRequestElems rest).map (fun t => r :: t)
    | none => none

/-- `json.Unmarshal` into `[]Request` (`null` gives the nil slice). -/
def decodeRequestList : JVal → Option (List Request)
  | .null => some []
  | .arr xs => decodeRequestElems xs
  | _ => none

/-- Object fields into a `LiveData` struct. -/
def decodeLiveDataFields : List (String × JVal) → LiveData → Option LiveData
  | [], acc => some acc
  | (k, v) :: rest, acc =>
    if eqFold k "version" then
      match decodeStrField v acc.version with
      | some s => decodeLiveDataFields rest { acc with version := s }
      | none => none
    else if eqFold k "exported_at" then
      match decodeStrField v acc.exportedAt with
      | some s => decodeLiveDataFields rest { acc with exportedAt := s }
      | none => none
    else if eqFold k "session_id" then
      match decodeStrField v acc.sessionID with
      | some s => decodeLiveDataFields rest { acc with sessionID := s }
      | none => none
    else if eqFold k "requests" then
      match decodeRequestList v with
      | some rs => decodeLiveDataFields rest { acc with requests := rs }
      | none => none
    else decodeLiveDataFields rest acc

/-- `json.Unmarshal(content, data)` into an already-initialized `LiveData`
(fields absent from the JSON keep their initial values). -/
def decodeLiveDataInto (init : LiveData) : JVal → Option LiveData
  | .null => some init
  | .obj fields => decodeLiveDataFields fields init
  | _ => none

/-- The state of the live snapshot file as `loadLiveData` observes it:
absent (or unreadable), present but not syntactically valid JSON, or a
parsed JSON document. -/
inductive SnapshotFile where
  | absent
  | invalid
  | json (v : JVal)

/-- The `LiveData` value `loadLiveData` initializes (and falls back to). -/
def freshLiveData : LiveData := { version := "1.0", requests := [] }

/-- cmd/host/main.go `loadLiveData`: absent file → fresh; unmarshal error
(invalid JSON text or a type mismatch) → log to stderr and fresh; success
→ the decoded data.  The function cannot fail: it always returns a
`LiveData`. -/
def loadLiveData : SnapshotFile → LiveData
  | .absent => freshLiveData
  | .invalid => freshLiveData
  | .json v =>
    match decodeLiveDataInto freshLiveData v with
    | some d => d
    | none => freshLiveData

/-- cmd/host/main.go `Message` (from the extension). -/
structure HostMsg where
  type : String := ""
  requests : Option (List Request) := none
  request : Option Request := none
  action : String := ""

/-- The response map `handleMessage` builds (keys absent from a branch are
`none`). -/
structure HostResponse where
  success : Bool := false
  action : Option String := none
  count : Option Nat := none
  path : Option String := none
  error : Option String := none
deriving Repr, DecidableEq

/-- The host's mutable state: the in-memory `liveData` and the value last
written to the snapshot file (`disk`).  A `saveLiveDataUnlocked` makes the
two equal. -/
structure HostState where
  live : LiveData
  disk : LiveData
deriving Repr, DecidableEq

/-- cmd/host/main.go `MaxLiveRequests`. -/
def MaxLiveRequests : Nat := 10000

def unknownActionResp : HostResponse := { success := false, error := some "unknown action" }

/-- cmd/host/main.go `handleMessage` together with the
`saveLiveDataUnlocked` each mutating branch performs; `now` is the
RFC 3339 timestamp the save stamps into `exported_at`, `dataPath` the
snapshot path reported by ping. -/
def handleMessage (now dataPath : String) (st : HostState) (msg : HostMsg) :
    HostState × HostResponse :=
  if msg.action = "add" then
    match msg.request with
    | some r =>
      let rotated :=
        if MaxLiveRequests ≤ st.live.requests.length then
          st.live.requests.drop (MaxLiveRequests / 10)
        else st.live.requests
      let live1 := { st.live with requests := rotated ++ [r], exportedAt := now }
      (⟨live1, live1⟩,
       { success := true, action := some "add", count := some live1.requests.length })
    | none => (st, unknownActionResp)
  else if msg.action = "sync" then
    match msg.requests with
    | some rs =>
      let rs1 :=
        if MaxLiveRequests < rs.length then rs.drop (rs.length - MaxLiveRequests) else rs
      let live1 := { st.live with requests := rs1, exportedAt := now }
      (⟨live1, live1⟩,
       { success := true, action := some "sync", count := some rs1.length })
    | none => (st, unknownActionResp)
  else if msg.action = "clear" then
    let live1 := { st.live with requests := [], exportedAt := now }
    (⟨live1, live1⟩, { success := true, action := some "clear" })
  else if msg.action = "ping" then
    (st, { success := true, action := some "pong",
           count := some st.live.requests.length, path := some dataPath })
  else (st, unknownActionResp)

/-- cmd/host/main.go `clearLiveData`: the on-disconnect clear (also resets
the session binding) followed by its persist. -/
def clearLiveData (now : String) (st : HostState) : HostState :=
  let live1 := { st.live with requests := [], sessionID := "", exportedAt := now }
  ⟨live1, live1⟩

/-- The live-buffer states reachable through the manager's own operations:
a fresh start, any handled message, the disconnect clear, and a restart
that reloads the manager's own snapshot. -/
inductive Reachable : HostState → Prop where
  | init : Reachable ⟨freshLiveData, freshLiveData⟩
  | step (now dataPath : String) (msg : HostMsg) (st : HostState) :
      Reachable st → Reachable (handleMessage now dataPath st msg).1
  | disconnect (now : String) (st : HostState) :
      Reachable st → Reachable (clearLiveData now st)
  | reload (st : HostState) : Reachable st → Reachable ⟨st.disk, st.disk⟩

/-! ## Shared lemmas -/

/-- Field derivation is idempotent: it reads only the URL, which it never
changes. -/
theorem computeRequestFields_idem (r : Request) :
    ComputeRequestFields (ComputeRequestFields r) = ComputeRequestFields r := by
  unfold ComputeRequestFields
  cases h : urlParse r.url <;> simp [h]

/-- `loadStore` does not migrate when the legacy field is empty or
sessions already exist: session count and legacy requests are
preserved. -/
theorem loadStore_no_migrate (today : String) (now : Int) (st : Store)
    (h : st.requests = [] ∨ st.sessions ≠ []) :
    (loadStore today now st).sessions.length = st.sessions.length
    ∧ (loadStore today now st).requests = st.requests := by
  have hcond : ¬(st.requests.length > 0 ∧ st.sessions.length = 0) := by
    rcases h with h1 | h2
    · intro hc
      rw [h1] at hc
      simp at hc
    · intro hc
      exact h2 (List.length_eq_zero.mp hc.2)
  unfold loadStore migrateStore
  rw [if_neg hcond]
  simp

/-- `loadStore` on a legacy-format store synthesizes exactly the one
migration session and clears the legacy fields. -/
theorem loadStore_migrate (today : String) (now : Int) (st : Store)
    (hreq : st.requests ≠ []) (hsess : st.sessions = []) :
    (loadStore today now st).sessions =
      [{ id := "migrated-" ++ today, timestamp := now,
         note := "Auto-migrated from old format",
         requests := st.requests.map ComputeRequestFields }]
    ∧ (loadStore today now st).requests = []
    ∧ (loadStore today now st).lastImport = 0 := by
  have hcond : st.requests.length > 0 ∧ st.sessions.length = 0 :=
    ⟨List.length_pos.mpr hreq, by simp [hsess]⟩
  unfold loadStore migrateStore
  rw [if_pos hcond]
  simp [List.map_map]
  exact fun r _ => computeRequestFields_idem r

/-- C4: loading migrates the legacy flat-request format exactly when
legacy requests are present and no session exists — producing the single
`migrated-<today>` session holding the legacy requests (fields derived)
with the legacy fields cleared — synthesizes nothing when sessions
already exist, and is idempotent: a second load never adds a session. -/
theorem load_migration (today t2 : String) (now n2 : Int) (st : Store) :
    (st.requests ≠ [] → st.sessions = [] →
      (loadStore today now st).sessions =
        [{ id := "migrated-" ++ today, timestamp := now,
           note := "Auto-migrated from old format",
           requests := st.requests.map ComputeRequestFields }]
      ∧ (loadStore today now st).requests = []
      ∧ (loadStore today now st).lastImport = 0)
    ∧ (st.sessions ≠ [] → (loadStore today now st).sessions.length = st.sessions.length)
    ∧ (loadStore t2 n2 (loadStore today now st)).sessions.length
        = (loadStore today now st).sessions.length := by
  refine ⟨fun hreq hsess => loadStore_migrate today now st hreq hsess,
          fun hsess => (loadStore_no_migrate today now st (Or.inr hsess)).1, ?_⟩
  by_cases hreq : st.requests = []
  · exact (loadStore_no_migrate t2 n2 _
      (Or.inl ((loadStore_no_migrate today now st (Or.inl hreq)).2.trans hreq))).1
  · by_cases hsess : st.sessions = []
    · exact (loadStore_no_migrate t2 n2 _
        (Or.inl (loadStore_migrate today now st hreq hsess).2.1)).1
    · refine (loadStore_no_migrate t2 n2 _ (Or.inr ?_)).1
      have hlen := (loadStore_no_migrate today now st (Or.inr hsess)).1
      intro hnil
      rw [hnil] at hlen
      exact hsess (List.length_eq_zero.mp hlen.symm)

/-- Witness for `load_migration`: a legacy store with one request
migrates into the dated session; a store that already has a session is
left with exactly that one session. -/
theorem load_migration_witness :
    (loadStore "20260101" 9 { requests := [{ url := "https://a.b/c" }] }).sessions =
      [{ id := "migrated-20260101", timestamp := 9,
         note := "Auto-migrated from old format",
         requests := [ComputeRequestFields { url := "https://a.b/c" }] }]
    ∧ (loadStore "20260101" 9 { requests := [{ url := "https://a.b/c" }] }).requests = []
    ∧ (loadStore "20260101" 9
        { sessions := [{ id := "s1" }],
          requests := [{ url := "https://a.b/c" }] }).sessions.length = 1 := by
  refine ⟨?_, ?_, ?_⟩
  · exact (load_migration "20260101" "x" 9 0 { requests := [{ url := "https://a.b/c" }] }).1
      (by decide) rfl |>.1
  · exact (load_migration "20260101" "x" 9 0 { requests := [{ url := "https://a.b/c" }] }).1
      (by decide) rfl |>.2.1
  · exact (load_migration "20260101" "x" 9 0
      { sessions := [{ id := "s1" }], requests := [{ url := "https://a.b/c" }] }).2.1
      (by decide)

/-- `handleMessage` specialised to an `add` message (definitional). -/
theorem handleMessage_add (now dataPath : String) (st : HostState) (r : Request) :
    handleMessage now dataPath st { action := "add", request := some r }
      = (let rotated :=
          if MaxLiveRequests ≤ st.live.requests.length then
            st.live.requests.drop (MaxLiveRequests / 10)
          else st.live.requests
         let live1 := { st.live with requests := rotated ++ [r], exportedAt := now }
         (⟨live1, live1⟩,
          { success := true, action := some "add",
            count := some live1.requests.length })) := rfl

/-- `handleMessage` specialised to a `sync` message (definitional). -/
theorem handleMessage_sync (now dataPath : String) (st : HostState) (rs : List Request) :
    handleMessage now dataPath st { action := "sync", requests := some rs }
      = (let rs1 :=
          if MaxLiveRequests < rs.length then rs.drop (rs.length - MaxLiveRequests) else rs
         let live1 := { st.live with requests := rs1, exportedAt := now }
         (⟨live1, live1⟩,
          { success := true, action := some "sync", count := some rs1.length })) := rfl

/-- Every state the manager can reach keeps both the in-memory buffer and
the persisted snapshot within capacity. -/
theorem reachable_le_max {st : HostState} (h : Reachable st) :
    st.live.requests.length ≤ MaxLiveRequests
    ∧ st.disk.requests.length ≤ MaxLiveRequests := by
  have hM : MaxLiveRequests = 10000 := rfl
  have hM10 : MaxLiveRequests / 10 = 1000 := rfl
  induction h with
  | init => simp [freshLiveData]
  | disconnect now st1 h ih => simp [clearLiveData]
  | reload st1 h ih => exact ⟨ih.2, ih.2⟩
  | step now dataPath msg st1 h ih =>
    rcases ih with ⟨ih1, ih2⟩
    by_cases ha : msg.action = "add"
    · rcases hreq : msg.request with _ | r
      · simpa [handleMessage, ha, hreq] using ⟨ih1, ih2⟩
      · have hmain : ((if MaxLiveRequests ≤ st1.live.requests.length then
            st1.live.requests.drop (MaxLiveRequests / 10)
          else st1.live.requests) ++ [r]).length ≤ MaxLiveRequests := by
          by_cases hlen : MaxLiveRequests ≤ st1.live.requests.length
          · rw [if_pos hlen]
            simp [List.length_drop]
            omega
          · rw [if_neg hlen]
            simp
            omega
        constructor <;> simpa [handleMessage, ha, hreq] using hmain
    · by_cases hs : msg.action = "sync"
      · rcases hreq : msg.requests with _ | rs
        · simpa [handleMessage, ha, hs, hreq] using ⟨ih1, ih2⟩
        · have hmain : ((if MaxLiveRequests < rs.length then
              rs.drop (rs.length - MaxLiveRequests) else rs)).length ≤ MaxLiveRequests := by
            by_cases hlen : MaxLiveRequests < rs.length
            · rw [if_pos hlen]
              simp [List.length_drop]
              omega
            · rw [if_neg hlen]
              omega
          constructor <;> simpa [handleMessage, ha, hs, hreq] using hmain
      · by_cases hc : msg.action = "clear"
        · simp [handleMessage, ha, hs, hc]
        · by_cases hp : msg.action = "ping"
          · simpa [handleMessage, ha, hs, hc, hp] using ⟨ih1, ih2⟩
          · simpa [handleMessage, ha, hs, hc, hp] using ⟨ih1, ih2⟩

/-- C2: from every reachable buffer state, an add never pushes the buffer
past the 10,000 capacity, and when the buffer is at or above capacity the
add evicts exactly `capacity/10` oldest entries before appending, the
survivors keeping their relative order (they form the drop, a sublist of
the original buffer). -/
theorem live_buffer_rotation (st : HostState) (r : Request) (now dataPath : String)
    (hreach : Reachable st) :
    (handleMessage now dataPath st
        { action := "add", request := some r }).1.live.requests.length ≤ MaxLiveRequests
    ∧ (MaxLiveRequests ≤ st.live.requests.length →
        (handleMessage now dataPath st
            { action := "add", request := some r }).1.live.requests
          = st.live.requests.drop (MaxLiveRequests / 10) ++ [r]
        ∧ st.live.requests.length
            - (st.live.requests.drop (MaxLiveRequests / 10)).length = MaxLiveRequests / 10
        ∧ (st.live.requests.drop (MaxLiveRequests / 10)).Sublist st.live.requests) := by
  have hM : MaxLiveRequests = 10000 := rfl
  have hM10 : MaxLiveRequests / 10 = 1000 := rfl
  have hinv := (reachable_le_max hreach).1
  rw [handleMessage_add]
  constructor
  · show ((if MaxLiveRequests ≤ st.live.requests.length then
        st.live.requests.drop (MaxLiveRequests / 10)
      else st.live.requests) ++ [r]).length ≤ MaxLiveRequests
    by_cases hlen : MaxLiveRequests ≤ st.live.requests.length
    · rw [if_pos hlen]
      simp [List.length_drop]
      omega
    · rw [if_neg hlen]
      simp
      omega
  · intro hlen
    refine ⟨?_, ?_, List.drop_sublist _ _⟩
    · show (if MaxLiveRequests ≤ st.live.requests.length then
          st.live.requests.drop (MaxLiveRequests / 10)
        else st.live.requests) ++ [r]
          = st.live.requests.drop (MaxLiveRequests / 10) ++ [r]
      rw [if_pos hlen]
    · simp [List.length_drop]
      omega

/-- Witness for `live_buffer_rotation`: syncing 10,000 requests into a
fresh manager reaches a full buffer, and an add from there stays within
capacity and evicts the oldest 1,000. -/
theorem live_buffer_rotation_witness :
    Reachable (handleMessage "t1" "p" ⟨freshLiveData, freshLiveData⟩
        { action := "sync", requests := some (List.replicate 10000 ({} : Request)) }).1
    ∧ MaxLiveRequests ≤ (handleMessage "t1" "p" ⟨freshLiveData, freshLiveData⟩
        { action := "sync",
          requests := some (List.replicate 10000 ({} : Request)) }).1.live.requests.length
    ∧ (handleMessage "t2" "p"
        (handleMessage "t1" "p" ⟨freshLiveData, freshLiveData⟩
          { action := "sync", requests := some (List.replicate 10000 ({} : Request)) }).1
        { action := "add",
          request := some ({ id := "n" } : Request) }).1.live.requests.length
      ≤ MaxLiveRequests
    ∧ (handleMessage "t2" "p"
        (handleMessage "t1" "p" ⟨freshLiveData, freshLiveData⟩
          { action := "sync", requests := some (List.replicate 10000 ({} : Request)) }).1
        { action := "add", request := some ({ id := "n" } : Request) }).1.live.requests
      = (handleMessage "t1" "p" ⟨freshLiveData, freshLiveData⟩
          { action := "sync",
            requests := some (List.replicate 10000 ({} : Request)) }).1.live.requests.drop
          (MaxLiveRequests / 10) ++ [{ id := "n" }] := by
  have hreach : Reachable (handleMessage "t1" "p" ⟨freshLiveData, freshLiveData⟩
      { action := "sync", requests := some (List.replicate 10000 ({} : Request)) }).1 :=
    Reachable.step "t1" "p" _ _ Reachable.init
  have hM : MaxLiveRequests = 10000 := rfl
  revert hreach
  generalize hRS : List.replicate 10000 ({} : Request) = rs
  intro hreach
  have hrslen : rs.length = 10000 := by
    rw [← hRS, List.length_replicate]
  have hlive : (handleMessage "t1" "p" ⟨freshLiveData, freshLiveData⟩
      { action := "sync", requests := some rs }).1.live.requests = rs := by
    rw [handleMessage_sync]
    show (if MaxLiveRequests < rs.length then
        rs.drop (rs.length - MaxLiveRequests) else rs) = rs
    rw [if_neg (by omega)]
  have hlen : MaxLiveRequests ≤ (handleMessage "t1" "p" ⟨freshLiveData, freshLiveData⟩
      { action := "sync", requests := some rs }).1.live.requests.length := by
    rw [hlive]
    omega
  exact ⟨hreach, hlen,
    (live_buffer_rotation _ { id := "n" } "t2" "p" hreach).1,
    ((live_buffer_rotation _ { id := "n" } "t2" "p" hreach).2 hlen).1⟩

/-- The collection loop of `Store.Filter` equals: filter by the predicate
conjunction, drop the remaining offset, then (when a limit is active) take
the remaining limit. -/
theorem filterLoop_eq (keep : Request → Bool) (limit : Int) (rs : List Request) :
    ∀ (off : Int) (cnt : Nat), (0 < limit → (cnt : Int) < limit) →
      filterLoop keep limit rs off cnt =
        (if 0 < limit then ((rs.filter keep).drop off.toNat).take (limit.toNat - cnt)
         else (rs.filter keep).drop off.toNat) := by
  induction rs with
  | nil =>
    intro off cnt hcnt
    simp [filterLoop]
  | cons r rest ih =>
    intro off cnt hcnt
    simp only [filterLoop, List.filter_cons]
    by_cases hk : keep r
    · simp only [if_pos hk]
      by_cases hoff : 0 < off
      · simp only [if_pos hoff]
        rw [ih (off - 1) cnt hcnt]
        have h1 : off.toNat = (off - 1).toNat + 1 := by omega
        rw [h1, List.drop_succ_cons]
      · simp only [if_neg hoff]
        have h0 : off.toNat = 0 := by omega
        rw [h0]
        by_cases hstop : 0 < limit ∧ limit ≤ (cnt : Int) + 1
        · simp only [if_pos hstop, if_pos hstop.1]
          have h2 : limit.toNat - cnt = 1 := by
            have := hcnt hstop.1
            omega
          rw [h2, List.drop_zero, List.take_succ_cons, List.take_zero]
        · simp only [if_neg hstop]
          by_cases hl : 0 < limit
          · have hlt : ((cnt + 1 : Nat) : Int) < limit := by
              rcases not_and_or.mp hstop with h | h
              · exact absurd hl h
              · push_cast
                omega
            rw [ih off (cnt + 1) (fun _ => hlt), h0]
            simp only [if_pos hl, List.drop_zero]
            have h3 : limit.toNat - cnt = (limit.toNat - (cnt + 1)) + 1 := by
              have := hcnt hl
              omega
            rw [h3, List.take_succ_cons]
          · have hle : limit ≤ 0 := by omega
            rw [ih off (cnt + 1) (fun h => absurd h hl), h0]
            simp only [if_neg hl, List.drop_zero]
    · simp only [if_neg hk]
      exact ih off cnt hcnt

/-- Everything the filter loop returns satisfies the predicate. -/
theorem keep_of_mem_filterLoop {keep : Request → Bool} {limit : Int} :
    ∀ {rs : List Request} {off : Int} {cnt : Nat} {x : Request},
      x ∈ filterLoop keep limit rs off cnt → keep x = true := by
  intro rs
  induction rs with
  | nil =>
    intro off cnt x hx
    simp [filterLoop] at hx
  | cons r rest ih =>
    intro off cnt x hx
    simp only [filterLoop] at hx
    by_cases hk : keep r
    · rw [if_pos hk] at hx
      by_cases hoff : 0 < off
      · rw [if_pos hoff] at hx
        exact ih hx
      · rw [if_neg hoff] at hx
        by_cases hstop : 0 < limit ∧ limit ≤ (cnt : Int) + 1
        · rw [if_pos hstop] at hx
          rw [List.mem_singleton.mp hx]
          exact hk
        · rw [if_neg hstop] at hx
          rcases List.mem_cons.mp hx with h | h
          · rw [h]
            exact hk
          · exact ih h
    · rw [if_neg hk] at hx
      exact ih hx

/-- The filter loop returns a sublist of its input: order is preserved. -/
theorem filterLoop_sublist (keep : Request → Bool) (limit : Int) :
    ∀ (rs : List Request) (off : Int) (cnt : Nat),
      (filterLoop keep limit rs off cnt).Sublist rs := by
  intro rs
  induction rs with
  | nil =>
    intro off cnt
    simp [filterLoop]
  | cons r rest ih =>
    intro off cnt
    simp only [filterLoop]
    by_cases hk : keep r
    · simp only [if_pos hk]
      by_cases hoff : 0 < off
      · simp only [if_pos hoff]
        exact (ih (off - 1) cnt).cons r
      · simp only [if_neg hoff]
        by_cases hstop : 0 < limit ∧ limit ≤ (cnt : Int) + 1
        · simp only [if_pos hstop]
          exact (List.nil_sublist rest).cons₂ r
        · simp only [if_neg hstop]
          exact (ih off (cnt + 1)).cons₂ r
    · simp only [if_neg hk]
      exact (ih off cnt).cons r

/-- The per-request checks ignore the pagination fields. -/
theorem reqMatches_pagination (st : Store) (opts : FilterOptions) (a b : Int) :
    reqMatches st { opts with limit := a, offset := b } = reqMatches st opts := rfl

/-- `Store.Filter` in closed form: match, drop the offset, take the
limit. -/
theorem Filter_eq_pagination (st : Store) (opts : FilterOptions) :
    Store.Filter st opts =
      (if 0 < opts.limit then
        ((st.requests.filter (reqMatches st opts)).drop opts.offset.toNat).take opts.limit.toNat
       else (st.requests.filter (reqMatches st opts)).drop opts.offset.toNat) := by
  have h := filterLoop_eq (reqMatches st opts) opts.limit st.requests opts.offset 0
    (fun h => by simpa using h)
  simpa [Store.Filter] using h

/-- A `Store.Filter` with inactive pagination is plain list filtering. -/
theorem Filter_eq_filter (st : Store) (opts : FilterOptions)
    (h1 : opts.limit = 0) (h2 : opts.offset = 0) :
    Store.Filter st opts = st.requests.filter (reqMatches st opts) := by
  rw [Filter_eq_pagination, h1, h2]
  simp

/-- The zero-value `FilterOptions` matches every request. -/
theorem reqMatches_default (st : Store) (r : Request) : reqMatches st {} r = true := by
  simp [reqMatches]

/-- chain.go relies on `Filter(FilterOptions{})` returning every request in
order. -/
theorem Filter_default (st : Store) : Store.Filter st {} = st.requests := by
  rw [Filter_eq_filter st {} rfl rfl]
  exact List.filter_eq_self.mpr fun a _ => reqMatches_default st a

/-- C3: with pagination inactive, filtering by a conjunction of predicate
sets is contained in the intersection of filtering by each alone; a limit
of N caps the result at N elements; every filter result is a sublist of
the store's requests (relative order preserved); pagination is applied
last — the result is the unlimited match list with the first `offset`
matches dropped and then at most `limit` taken; and a limit or offset of
0 means unlimited. -/
theorem filter_composition_pagination (s : Store) (oAB oA oB opts : FilterOptions)
    (hsplit : ∀ r, reqMatches s oAB r = (reqMatches s oA r && reqMatches s oB r))
    (hAB : oAB.limit = 0 ∧ oAB.offset = 0)
    (hA : oA.limit = 0 ∧ oA.offset = 0)
    (hB : oB.limit = 0 ∧ oB.offset = 0) :
    (∀ r, r ∈ Store.Filter s oAB → r ∈ Store.Filter s oA ∧ r ∈ Store.Filter s oB)
    ∧ (0 < opts.limit → (Store.Filter s opts).length ≤ opts.limit.toNat)
    ∧ (Store.Filter s opts).Sublist s.requests
    ∧ (Store.Filter s opts =
        (if 0 < opts.limit then
          ((Store.Filter s { opts with limit := 0, offset := 0 }).drop opts.offset.toNat).take
            opts.limit.toNat
         else (Store.Filter s { opts with limit := 0, offset := 0 }).drop opts.offset.toNat))
    ∧ (opts.limit = 0 → opts.offset = 0 →
        Store.Filter s opts = s.requests.filter (reqMatches s opts)) := by
  refine ⟨?_, ?_, ?_, ?_, fun h1 h2 => Filter_eq_filter s opts h1 h2⟩
  · intro r hr
    rw [Filter_eq_filter s oAB hAB.1 hAB.2] at hr
    rcases List.mem_filter.mp hr with ⟨hmem, hkeep⟩
    rw [hsplit r] at hkeep
    simp only [Bool.and_eq_true] at hkeep
    rcases hkeep with ⟨hkA, hkB⟩
    exact ⟨by rw [Filter_eq_filter s oA hA.1 hA.2]; exact List.mem_filter.mpr ⟨hmem, hkA⟩,
           by rw [Filter_eq_filter s oB hB.1 hB.2]; exact List.mem_filter.mpr ⟨hmem, hkB⟩⟩
  · intro hl
    rw [Filter_eq_pagination, if_pos hl]
    exact List.length_take_le _ _
  · rw [Filter_eq_pagination]
    by_cases hl : 0 < opts.limit
    · rw [if_pos hl]
      exact ((List.take_sublist _ _).trans (List.drop_sublist _ _)).trans
        (List.filter_sublist _)
    · rw [if_neg hl]
      exact (List.drop_sublist _ _).trans (List.filter_sublist _)
  · rw [Filter_eq_pagination s opts,
        Filter_eq_filter s { opts with limit := 0, offset := 0 } rfl rfl]
    rfl

/-- C9: a response-less request is excluded by every filter with a
non-zero exact status, but passes every status-range filter: with only
`StatusRange`/`StatusRanges` set it appears in the output. -/
theorem responseless_status_filters (s : Store) (r : Request)
    (hresp : r.response = none) (hmem : r ∈ s.requests) :
    (∀ opts : FilterOptions, opts.status ≠ 0 → r ∉ Store.Filter s opts)
    ∧ (∀ (sr : String) (srs : List String),
        r ∈ Store.Filter s { statusRange := sr, statusRanges := srs }) := by
  constructor
  · intro opts hst hr
    have hk := keep_of_mem_filterLoop hr
    simp only [reqMatches, hresp, Bool.and_eq_true] at hk
    have hstatus := hk.1.1.1.1.2
    simp at hstatus
    exact hst hstatus
  · intro sr srs
    rw [Filter_eq_filter s { statusRange := sr, statusRanges := srs } rfl rfl]
    refine List.mem_filter.mpr ⟨hmem, ?_⟩
    simp [reqMatches, hresp]

/-- Witness for `filter_composition_pagination`: a concrete store, the
domain+method conjunction against each predicate alone, and a limit-1
filter. -/
theorem filter_composition_pagination_witness :
    (({ id := "r2", domain := "a.b", method := "GET", url := "u2" } : Request)
        ∈ Store.Filter
          { requests := [{ id := "r1", domain := "c.d", method := "GET", url := "u1" },
                         { id := "r2", domain := "a.b", method := "GET", url := "u2" }] }
          { domain := "a.b" }
      ∧ ({ id := "r2", domain := "a.b", method := "GET", url := "u2" } : Request)
        ∈ Store.Filter
          { requests := [{ id := "r1", domain := "c.d", method := "GET", url := "u1" },
                         { id := "r2", domain := "a.b", method := "GET", url := "u2" }] }
          { method := "GET" })
    ∧ (Store.Filter
        { requests := [{ id := "r1", domain := "c.d", method := "GET", url := "u1" },
                       { id := "r2", domain := "a.b", method := "GET", url := "u2" }] }
        { method := "GET", limit := 1 }).length ≤ (1 : Int).toNat := by
  refine ⟨?_, ?_⟩
  · exact (filter_composition_pagination
      { requests := [{ id := "r1", domain := "c.d", method := "GET", url := "u1" },
                     { id := "r2", domain := "a.b", method := "GET", url := "u2" }] }
      { domain := "a.b", method := "GET" } { domain := "a.b" } { method := "GET" } {}
      (by intro r; simp [reqMatches]) ⟨rfl, rfl⟩ ⟨rfl, rfl⟩ ⟨rfl, rfl⟩).1
      { id := "r2", domain := "a.b", method := "GET", url := "u2" } (by decide)
  · exact (filter_composition_pagination
      { requests := [{ id := "r1", domain := "c.d", method := "GET", url := "u1" },
                     { id := "r2", domain := "a.b", method := "GET", url := "u2" }] }
      { domain := "a.b", method := "GET" } { domain := "a.b" } { method := "GET" }
      { method := "GET", limit := 1 }
      (by intro r; simp [reqMatches]) ⟨rfl, rfl⟩ ⟨rfl, rfl⟩ ⟨rfl, rfl⟩).2.1 (by decide)

/-- Witness for `responseless_status_filters`: a response-less request is
dropped by `status = 404` but kept by `4xx`/`5xx` range filters. -/
theorem responseless_status_filters_witness :
    ({ id := "r0", url := "u" } : Request)
        ∉ Store.Filter { requests := [{ id := "r0", url := "u" }] } { status := 404 }
    ∧ ({ id := "r0", url := "u" } : Request)
        ∈ Store.Filter { requests := [{ id := "r0", url := "u" }] }
            { statusRange := "4xx", statusRanges := ["4xx", "5xx"] } :=
  ⟨(responseless_status_filters _ _ rfl (by simp)).1 { status := 404 } (by decide),
   (responseless_status_filters _ _ rfl (by simp)).2 "4xx" ["4xx", "5xx"]⟩

/-! ### Header decode lemmas (C5) -/

/-- The string-array elements decoder recovers the encoded strings. -/
theorem decodeStrElems_strs (vs : List String) :
    decodeStrElems (vs.map JVal.str) = some vs := by
  induction vs with
  | nil => rfl
  | cons v rest ih => simp [decodeStrElems, ih]

/-- `decodeStringList` recovers an encoded string array. -/
theorem decodeStringList_strs (vs : List String) :
    decodeStringList (.arr (vs.map JVal.str)) = some vs := by
  simp [decodeStringList, decodeStrElems_strs]

/-- Map-setting an absent key appends it. -/
theorem assocSet_of_not_mem {α : Type} (m : List (String × α)) (k : String) (v : α)
    (h : k ∉ m.map Prod.fst) :
    assocSet m k v = m ++ [(k, v)] := by
  induction m with
  | nil => rfl
  | cons p rest ih =>
    obtain ⟨k1, v1⟩ := p
    simp only [List.map_cons, List.mem_cons, not_or] at h
    simp only [assocSet]
    rw [if_neg fun he => h.1 he.symm, ih h.2]
    rfl

/-- Map-appending to an absent key appends a one-element binding. -/
theorem assocAppend_of_not_mem (m : HeaderMap) (k v : String)
    (h : k ∉ m.map Prod.fst) :
    assocAppend m k v = m ++ [(k, [v])] := by
  induction m with
  | nil => rfl
  | cons p rest ih =>
    obtain ⟨k1, v1⟩ := p
    simp only [List.map_cons, List.mem_cons, not_or] at h
    simp only [assocAppend]
    rw [if_neg fun he => h.1 he.symm, ih h.2]
    rfl

/-- Decoding an object of string arrays accumulates the bindings in
order. -/
theorem decodeMultiFields_strArrays (pairs : List (String × List String)) (acc : HeaderMap)
    (hdis : ∀ x ∈ pairs.map Prod.fst, x ∉ acc.map Prod.fst)
    (hnd : (pairs.map Prod.fst).Nodup) :
    decodeMultiFields (pairs.map (fun p => (p.1, JVal.arr (p.2.map JVal.str)))) acc
      = some (acc ++ pairs) := by
  induction pairs generalizing acc with
  | nil => simp [decodeMultiFields]
  | cons p rest ih =>
    obtain ⟨k, vs⟩ := p
    simp only [List.map_cons, decodeMultiFields, decodeStringList_strs]
    rw [assocSet_of_not_mem acc k vs (hdis k (by simp))]
    simp only [List.map_cons] at hnd
    have hnd1 := List.nodup_cons.mp hnd
    have hdis1 : ∀ x ∈ rest.map Prod.fst, x ∉ (acc ++ [(k, vs)]).map Prod.fst := by
      intro x hx
      have hxk : x ≠ k := by
        intro he
        exact hnd1.1 (he ▸ hx)
      have hxacc : x ∉ acc.map Prod.fst := hdis x (by simp [hx])
      simp [hxacc, hxk]
    rw [ih (acc ++ [(k, vs)]) hdis1 hnd1.2]
    simp

/-- Decoding an object of plain strings accumulates the bindings in
order. -/
theorem decodeSingleFields_strs (pairs : List (String × String))
    (acc : List (String × String))
    (hdis : ∀ x ∈ pairs.map Prod.fst, x ∉ acc.map Prod.fst)
    (hnd : (pairs.map Prod.fst).Nodup) :
    decodeSingleFields (pairs.map fun p => (p.1, JVal.str p.2)) acc = some (acc ++ pairs) := by
  induction pairs generalizing acc with
  | nil => simp [decodeSingleFields]
  | cons p rest ih =>
    obtain ⟨k, v⟩ := p
    simp only [List.map_cons, decodeSingleFields, decodeStringVal]
    rw [assocSet_of_not_mem acc k v (hdis k (by simp))]
    simp only [List.map_cons] at hnd
    have hnd1 := List.nodup_cons.mp hnd
    have hdis1 : ∀ x ∈ rest.map Prod.fst, x ∉ (acc ++ [(k, v)]).map Prod.fst := by
      intro x hx
      have hxk : x ≠ k := by
        intro he
        exact hnd1.1 (he ▸ hx)
      have hxacc : x ∉ acc.map Prod.fst := hdis x (by simp [hx])
      simp [hxacc, hxk]
    rw [ih (acc ++ [(k, v)]) hdis1 hnd1.2]
    simp

/-- The first branch wins: a successful `map[string][]string` decode is
the result. -/
theorem headerMapUnmarshal_of_multi {j : JVal} {m : HeaderMap}
    (h : decodeMulti j = some m) : headerMapUnmarshal j = some m := by
  cases j with
  | null => exact h
  | bool b => simp only [headerMapUnmarshal, h]
  | num n => simp only [headerMapUnmarshal, h]
  | str s => simp only [headerMapUnmarshal, h]
  | arr xs => simp only [headerMapUnmarshal, h]
  | obj fs => simp only [headerMapUnmarshal, h]

/-- The second branch: `map[string]string`, normalized to one-element
lists. -/
theorem headerMapUnmarshal_of_single {j : JVal} {sm : List (String × String)}
    (h1 : decodeMulti j = none) (h2 : decodeSingle j = some sm) :
    headerMapUnmarshal j = some (singleToMulti sm) := by
  cases j with
  | null => simp [decodeMulti] at h1
  | bool b => simp only [headerMapUnmarshal, h1, h2]
  | num n => simp only [headerMapUnmarshal, h1, h2]
  | str s => simp only [headerMapUnmarshal, h1, h2]
  | arr xs => simp only [headerMapUnmarshal, h1, h2]
  | obj fs => simp only [headerMapUnmarshal, h1, h2]

/-- The third branch: the `[]HeaderKV` pair list, folded per name. -/
theorem headerMapUnmarshal_of_kv {j : JVal} {kvl : List HeaderKV}
    (h1 : decodeMulti j = none) (h2 : decodeSingle j = none)
    (h3 : decodeKVList j = some kvl) :
    headerMapUnmarshal j = some (kvListToMap kvl []) := by
  cases j with
  | null => simp [decodeMulti] at h1
  | bool b => simp only [headerMapUnmarshal, h1, h2, h3]
  | num n => simp only [headerMapUnmarshal, h1, h2, h3]
  | str s => simp only [headerMapUnmarshal, h1, h2, h3]
  | arr xs => simp only [headerMapUnmarshal, h1, h2, h3]
  | obj fs => simp only [headerMapUnmarshal, h1, h2, h3]

/-- Unmarshalling fails when all three branches fail. -/
theorem headerMapUnmarshal_of_none {j : JVal}
    (h1 : decodeMulti j = none) (h2 : decodeSingle j = none)
    (h3 : decodeKVList j = none) :
    headerMapUnmarshal j = none := by
  cases j with
  | null => simp [decodeMulti] at h1
  | bool b => simp only [headerMapUnmarshal, h1, h2, h3]
  | num n => simp only [headerMapUnmarshal, h1, h2, h3]
  | str s => simp only [headerMapUnmarshal, h1, h2, h3]
  | arr xs => simp only [headerMapUnmarshal, h1, h2, h3]
  | obj fs => simp only [headerMapUnmarshal, h1, h2, h3]

/-- A `{"name","value"}` object decodes to the corresponding struct. -/
theorem decodeKVFields_pair (kv : HeaderKV) :
    decodeKVFields [("name", JVal.str kv.name), ("value", JVal.str kv.value)] {} = some kv := rfl

/-- A list of `{"name","value"}` objects decodes elementwise. -/
theorem decodeKVElems_pairs (kvs : List HeaderKV) :
    decodeKVElems (kvs.map fun kv =>
        JVal.obj [("name", JVal.str kv.name), ("value", JVal.str kv.value)])
      = some kvs := by
  induction kvs with
  | nil => rfl
  | cons kv rest ih =>
    simp only [List.map_cons, decodeKVElems, decodeKVFields_pair, ih]
    rfl

/-- Folding a pair list with non-empty pairwise-distinct names yields
one-element bindings in order. -/
theorem kvListToMap_nodup (kvs : List HeaderKV) (acc : HeaderMap)
    (hne : ∀ kv ∈ kvs, kv.name ≠ "")
    (hdis : ∀ kv ∈ kvs, kv.name ∉ acc.map Prod.fst)
    (hnd : (kvs.map HeaderKV.name).Nodup) :
    kvListToMap kvs acc = acc ++ kvs.map fun kv => (kv.name, [kv.value]) := by
  induction kvs generalizing acc with
  | nil => simp [kvListToMap]
  | cons kv rest ih =>
    simp only [kvListToMap]
    rw [if_neg (hne kv (by simp))]
    rw [assocAppend_of_not_mem acc kv.name kv.value (hdis kv (by simp))]
    simp only [List.map_cons] at hnd
    have hnd1 := List.nodup_cons.mp hnd
    have hdis1 : ∀ x ∈ rest, x.name ∉ (acc ++ [(kv.name, [kv.value])]).map Prod.fst := by
      intro x hx
      have hxk : x.name ≠ kv.name := by
        intro he
        exact hnd1.1 (he ▸ List.mem_map_of_mem _ hx)
      have hxacc : x.name ∉ acc.map Prod.fst := hdis x (List.mem_cons_of_mem _ hx)
      simp [hxacc, hxk]
    rw [ih (acc ++ [(kv.name, [kv.value])])
        (fun x hx => hne x (List.mem_cons_of_mem _ hx)) hdis1 hnd1.2]
    simp

/-- C5 counterexample: the code tries the multi-value-map decode first,
not the single-value map: on `{"a": null}` it returns `{"a": []}` (null
decodes as a nil `[]string`), while decoding in the spec's order would
return `{"a": [""]}`; and a pair list with a repeated name folds into a
two-element value list, not one-element lists. -/
theorem header_decode_order_counterexample :
    headerMapUnmarshal (.obj [("a", .null)]) = some [("a", [])]
    ∧ headerMapUnmarshalSpecOrder (.obj [("a", .null)]) = some [("a", [""])]
    ∧ headerMapUnmarshal (.obj [("a", .null)])
        ≠ headerMapUnmarshalSpecOrder (.obj [("a", .null)])
    ∧ headerMapUnmarshal (.arr [.obj [("name", .str "a"), ("value", .str "x")],
                                .obj [("name", .str "a"), ("value", .str "y")]])
        = some [("a", ["x", "y"])] :=
  ⟨rfl, rfl, by decide, rfl⟩

/-- C5 (amended): unmarshalling accepts the three wire encodings, trying
them in the code's order — `map[string][]string`, then `map[string]string`
(normalized to one-element lists), then the `{name,value}` pair list
(values folded per name) — succeeding on the first that parses and failing
exactly when none parses; a string-valued object yields one-element lists,
a pair list with distinct non-empty names yields one-element lists, and
encoding a multi-value map with distinct keys then decoding it yields the
same map. -/
theorem header_decode_spec (j : JVal) (hm : HeaderMap) (sm : List (String × String))
    (kvl : List HeaderKV) (pairs : List (String × String)) (kvs : List HeaderKV)
    (m : HeaderMap) :
    (decodeMulti j = some hm → headerMapUnmarshal j = some hm)
    ∧ (decodeMulti j = none → decodeSingle j = some sm →
        headerMapUnmarshal j = some (singleToMulti sm))
    ∧ (decodeMulti j = none → decodeSingle j = none → decodeKVList j = some kvl →
        headerMapUnmarshal j = some (kvListToMap kvl []))
    ∧ (headerMapUnmarshal j = none ↔
        decodeMulti j = none ∧ decodeSingle j = none ∧ decodeKVList j = none)
    ∧ ((pairs.map Prod.fst).Nodup →
        headerMapUnmarshal (.obj (pairs.map fun p => (p.1, JVal.str p.2)))
          = some (pairs.map fun p => (p.1, [p.2])))
    ∧ ((∀ kv ∈ kvs, kv.name ≠ "") → (kvs.map HeaderKV.name).Nodup →
        headerMapUnmarshal (.arr (kvs.map fun kv =>
            JVal.obj [("name", JVal.str kv.name), ("value", JVal.str kv.value)]))
          = some (kvs.map fun kv => (kv.name, [kv.value])))
    ∧ ((m.map Prod.fst).Nodup → headerMapUnmarshal (headerMapToJson m) = some m) := by
  refine ⟨headerMapUnmarshal_of_multi, headerMapUnmarshal_of_single,
          headerMapUnmarshal_of_kv, ?_, ?_, ?_, ?_⟩
  · constructor
    · intro h
      cases h1 : decodeMulti j with
      | some x =>
        rw [headerMapUnmarshal_of_multi h1] at h
        cases h
      | none =>
        cases h2 : decodeSingle j with
        | some x =>
          rw [headerMapUnmarshal_of_single h1 h2] at h
          cases h
        | none =>
          cases h3 : decodeKVList j with
          | some x =>
            rw [headerMapUnmarshal_of_kv h1 h2 h3] at h
            cases h
          | none => exact ⟨rfl, rfl, rfl⟩
    · rintro ⟨h1, h2, h3⟩
      exact headerMapUnmarshal_of_none h1 h2 h3
  · intro hnd
    cases pairs with
    | nil => rfl
    | cons p rest =>
      obtain ⟨k, v⟩ := p
      have h2 : decodeSingle (.obj (((k, v) :: rest).map fun p => (p.1, JVal.str p.2)))
          = some ((k, v) :: rest) := by
        show decodeSingleFields (((k, v) :: rest).map fun p => (p.1, JVal.str p.2)) []
          = some ((k, v) :: rest)
        rw [decodeSingleFields_strs ((k, v) :: rest) [] (by simp) hnd]
        rfl
      have h1 : decodeMulti (.obj (((k, v) :: rest).map fun p => (p.1, JVal.str p.2)))
          = none := rfl
      rw [headerMapUnmarshal_of_single h1 h2]
      rfl
  · intro hne hnd
    have h3 : decodeKVList (.arr (kvs.map fun kv =>
        JVal.obj [("name", JVal.str kv.name), ("value", JVal.str kv.value)])) = some kvs := by
      show decodeKVElems (kvs.map fun kv =>
        JVal.obj [("name", JVal.str kv.name), ("value", JVal.str kv.value)]) = some kvs
      exact decodeKVElems_pairs kvs
    have h1 : decodeMulti (.arr (kvs.map fun kv =>
        JVal.obj [("name", JVal.str kv.name), ("value", JVal.str kv.value)])) = none := rfl
    have h2 : decodeSingle (.arr (kvs.map fun kv =>
        JVal.obj [("name", JVal.str kv.name), ("value", JVal.str kv.value)])) = none := rfl
    rw [headerMapUnmarshal_of_kv h1 h2 h3]
    rw [kvListToMap_nodup kvs [] hne (by simp) hnd]
    rfl
  · intro hnd
    have h1 : decodeMulti (headerMapToJson m) = some m := by
      show decodeMultiFields (m.map fun p => (p.1, JVal.arr (p.2.map JVal.str))) [] = some m
      rw [decodeMultiFields_strArrays m [] (by simp) hnd]
      rfl
    exact headerMapUnmarshal_of_multi h1

/-- Witness for `header_decode_spec` at concrete documents of each wire
shape, plus a failing document. -/
theorem header_decode_spec_witness :
    headerMapUnmarshal (.obj [("a", .arr [.str "x", .str "y"])]) = some [("a", ["x", "y"])]
    ∧ headerMapUnmarshal (.obj [("a", .str "x"), ("b", .str "y")])
        = some [("a", ["x"]), ("b", ["y"])]
    ∧ headerMapUnmarshal (.arr [.obj [("name", .str "a"), ("value", .str "x")]])
        = some [("a", ["x"])]
    ∧ headerMapUnmarshal (headerMapToJson [("a", ["x", "y"])]) = some [("a", ["x", "y"])]
    ∧ headerMapUnmarshal (.num 3) = none := by
  refine ⟨?_, ?_, ?_, ?_, ?_⟩
  · exact (header_decode_spec (.obj [("a", .arr [.str "x", .str "y"])])
      [("a", ["x", "y"])] [] [] [] [] []).1 rfl
  · exact (header_decode_spec (.obj []) [] [] [] [("a", "x"), ("b", "y")] [] []).2.2.2.2.1
      (by decide)
  · exact (header_decode_spec (.obj []) [] [] [] [] [{ name := "a", value := "x" }] []).2.2.2.2.2.1
      (by decide) (by decide)
  · exact (header_decode_spec (.obj []) [] [] [] [] [] [("a", ["x", "y"])]).2.2.2.2.2.2
      (by decide)
  · exact ((header_decode_spec (.num 3) [] [] [] [] [] []).2.2.2.1).mpr ⟨rfl, rfl, rfl⟩

/-- Filtering by a stronger predicate yields at most as many elements. -/
theorem length_filter_le_mono {α : Type} (l : List α) (p q : α → Bool)
    (himp : ∀ x, q x = true → p x = true) :
    (l.filter q).length ≤ (l.filter p).length := by
  induction l with
  | nil => simp
  | cons x xs ih =>
    simp only [List.filter_cons]
    by_cases hq : q x = true
    · rw [if_pos hq, if_pos (himp x hq)]
      simpa using ih
    · rw [if_neg hq]
      by_cases hp : p x = true
      · rw [if_pos hp]
        exact ih.trans (by simp)
      · rw [if_neg hp]
        exact ih

/-- Filtering by a strictly stronger predicate that loses a present
element yields strictly fewer elements. -/
theorem length_filter_lt {α : Type} (l : List α) (p q : α → Bool)
    (himp : ∀ x, q x = true → p x = true) (a : α) (ha : a ∈ l)
    (hpa : p a = true) (hqa : q a = false) :
    (l.filter q).length < (l.filter p).length := by
  induction l with
  | nil => cases ha
  | cons x xs ih =>
    simp only [List.filter_cons]
    rcases List.mem_cons.mp ha with rfl | hmem
    · rw [if_pos hpa, if_neg (by simp [hqa])]
      exact Nat.lt_succ_of_le (length_filter_le_mono xs p q himp)
    · by_cases hq : q x = true
      · rw [if_pos hq, if_pos (himp x hq)]
        simpa using ih hmem
      · rw [if_neg hq]
        by_cases hp : p x = true
        · rw [if_pos hp]
          exact (ih hmem).trans (by simp)
        · rw [if_neg hp]
          exact ih hmem

/-- A request found by URL comes from the store's request list. -/
theorem findRequestByURL_mem {st : Store} {u : String} {p : Request}
    (h : findRequestByURL st u = some p) : p ∈ st.requests := by
  unfold findRequestByURL at h
  rw [Filter_default] at h
  exact List.mem_of_find?_eq_some h

/-- Fuel bound for the chain walk: whenever the fuel exceeds the number of
distinct store IDs not yet visited, the walk completes (each iteration
permanently visits a fresh ID). -/
theorem buildChainLoop_isSome (s : Store) :
    ∀ (fuel : Nat) (visited : List String) (cur : Request) (links : List ChainLink),
      cur.id ∈ s.requests.map (fun r => r.id) →
      ((distinctIDs s).filter (fun i => !(visited.contains i))).length + 1 ≤ fuel →
      (buildChainLoop s fuel visited cur links).isSome = true := by
  intro fuel
  induction fuel with
  | zero =>
    intro visited cur links hmem hfuel
    omega
  | succ fuel ih =>
    intro visited cur links hmem hfuel
    simp only [buildChainLoop]
    by_cases hvis : visited.contains cur.id = true
    · rw [if_pos hvis]
      rfl
    · rw [if_neg hvis]
      by_cases hinit : cur.initiator = ""
      · rw [if_pos hinit]
        rfl
      · rw [if_neg hinit]
        cases hfind : findRequestByURL s cur.initiator with
        | none => rfl
        | some parent =>
          show (if parent.id = cur.id then
              some (rootLink cur.initiator :: linkOf cur :: links)
            else buildChainLoop s fuel (cur.id :: visited) parent
              (linkOf cur :: links)).isSome = true
          by_cases hpid : parent.id = cur.id
          · rw [if_pos hpid]
            rfl
          · rw [if_neg hpid]
            have hvisf : visited.contains cur.id = false := by
              cases h : visited.contains cur.id
              · rfl
              · exact absurd h hvis
            have hcount :
                ((distinctIDs s).filter
                    (fun i => !((cur.id :: visited).contains i))).length
                  < ((distinctIDs s).filter (fun i => !(visited.contains i))).length := by
              refine length_filter_lt _ _ _ ?_ cur.id ?_ ?_ ?_
              · intro x hx
                simp only [List.contains_cons, Bool.not_or, Bool.and_eq_true] at hx
                exact hx.2
              · exact List.mem_dedup.mpr hmem
              · rw [hvisf]
                rfl
              · simp [List.contains_cons]
            refine ih (cur.id :: visited) parent (linkOf cur :: links) ?_ ?_
            · exact List.mem_map_of_mem _ (findRequestByURL_mem hfind)
            · omega

/-- C6: for a target request from the store, the chain walk terminates
within (number of distinct request IDs + 1) iterations of fuel even when
initiator references form a cycle, and the per-call visited set stops the
walk immediately (returning the links built so far) whenever it reaches an
already-visited ID. -/
theorem chain_termination (s : Store) (req : Request) (hmem : req ∈ s.requests) :
    (buildChainLoop s ((distinctIDs s).length + 1) [] req []).isSome = true
    ∧ ∀ (fuel : Nat) (visited : List String) (cur : Request) (links : List ChainLink),
        visited.contains cur.id = true →
        buildChainLoop s (fuel + 1) visited cur links = some links := by
  constructor
  · refine buildChainLoop_isSome s ((distinctIDs s).length + 1) [] req []
      (List.mem_map_of_mem _ hmem) ?_
    simp
  · intro fuel visited cur links hvis
    simp only [buildChainLoop]
    rw [if_pos hvis]

/-- Witness for `chain_termination` at a two-request store whose
initiators form a cycle. -/
theorem chain_termination_witness :
    (buildChainLoop
        { requests := [{ id := "1", url := "u1", initiator := "u2" },
                       { id := "2", url := "u2", initiator := "u1" }] }
        ((distinctIDs
          { requests := [{ id := "1", url := "u1", initiator := "u2" },
                         { id := "2", url := "u2", initiator := "u1" }] }).length + 1)
        [] { id := "1", url := "u1", initiator := "u2" } []).isSome = true
    ∧ buildChainLoop
        { requests := [{ id := "1", url := "u1", initiator := "u2" },
                       { id := "2", url := "u2", initiator := "u1" }] }
        (5 + 1) ["x"] { id := "x" } [] = some [] := by
  refine ⟨(chain_termination _ _ ?_).1, (chain_termination _
      ({ id := "1", url := "u1", initiator := "u2" } : Request) ?_).2 5 ["x"] { id := "x" } []
      (by decide)⟩
  · simp
  · simp

/-- C1: For every request with a stable ID (non-empty ID accompanied by a
non-empty original ID or carrying the `"h_"` marker) the fingerprint is the
request's ID; for every request without a stable ID it is the content
hash; `isStableID` rejects every empty ID; and the content hash depends
only on (method, URL, body, timestamp). -/
theorem fingerprint_spec (r r1 : Request) :
    (r.id ≠ "" → (r.originalID ≠ "" ∨ goHasPre r.id "h_" = true) →
      RequestFingerprint r = r.id)
    ∧ (isStableID r = false → RequestFingerprint r = RequestHash r)
    ∧ (r.id = "" → isStableID r = false)
    ∧ (r.method = r1.method → r.url = r1.url → r.body = r1.body →
        r.timestamp = r1.timestamp → RequestHash r = RequestHash r1) := by
  refine ⟨fun hid hor => ?_, fun huns => ?_, fun hid => ?_, fun h1 h2 h3 h4 => ?_⟩
  · have hstable : isStableID r = true := by
      unfold isStableID
      rcases hor with horig | hpre
      · simp [hid, horig]
      · simp [hid, hpre]
    simp [RequestFingerprint, hstable]
  · simp [RequestFingerprint, huns]
  · simp [isStableID, hid]
  · simp only [RequestHash, h1, h2, h3, h4]

/-- Witness for `fingerprint_spec` at concrete requests: a marker-stable
ID, an original-ID-stable ID, an unstable ID, an empty ID, and two
requests agreeing on the four hashed fields. -/
theorem fingerprint_spec_witness :
    RequestFingerprint { id := "h_7", url := "u" } = "h_7"
    ∧ RequestFingerprint { id := "x9", originalID := "orig", url := "u" } = "x9"
    ∧ RequestFingerprint { id := "x9", url := "u" } = RequestHash { id := "x9", url := "u" }
    ∧ isStableID { id := "", originalID := "orig" } = false
    ∧ RequestHash { id := "a", method := "GET", url := "u", body := "b", timestamp := 5 }
      = RequestHash { id := "zz", method := "GET", url := "u", body := "b", timestamp := 5 } :=
  ⟨(fingerprint_spec { id := "h_7", url := "u" } {}).1 (by decide) (Or.inr (by decide)),
   (fingerprint_spec { id := "x9", originalID := "orig", url := "u" } {}).1
     (by decide) (Or.inl (by decide)),
   (fingerprint_spec { id := "x9", url := "u" } {}).2.1 (by decide),
   (fingerprint_spec { id := "", originalID := "orig" } {}).2.2.1 rfl,
   (fingerprint_spec { id := "a", method := "GET", url := "u", body := "b", timestamp := 5 }
      { id := "zz", method := "GET", url := "u", body := "b", timestamp := 5 }).2.2.2
     rfl rfl rfl rfl⟩

/-- C8: ping is a pure status probe: for every buffer state (and whatever
else the message carries) it returns success, the current request count
and the backing file path, and returns the state unchanged — in
particular the in-memory buffer, its session binding and the persisted
snapshot are untouched and no save happens. -/
theorem ping_readonly (now dataPath t : String) (st : HostState)
    (oreq : Option Request) (oreqs : Option (List Request)) :
    handleMessage now dataPath st
        { type := t, requests := oreqs, request := oreq, action := "ping" }
      = (st, { success := true, action := some "pong",
               count := some st.live.requests.length, path := some dataPath }) := by
  rfl

/-- C7: loading the live snapshot never fails: an absent file, a file that
is not valid JSON, and a file whose JSON does not decode as `LiveData` all
yield the fresh empty buffer (fail-open); `loadLiveData` is total, so no
snapshot state produces an error. -/
theorem load_live_fail_open (v : JVal) :
    loadLiveData .absent = freshLiveData
    ∧ loadLiveData .invalid = freshLiveData
    ∧ (decodeLiveDataInto freshLiveData v = none →
        loadLiveData (.json v) = freshLiveData) := by
  refine ⟨rfl, rfl, fun hbad => ?_⟩
  simp [loadLiveData, hbad]

/-- Witness for `load_live_fail_open`: a snapshot whose JSON is a bare
number, and one whose `requests` field is a number, both fail to decode
and load as the fresh buffer. -/
theorem load_live_fail_open_witness :
    decodeLiveDataInto freshLiveData (.num 3) = none
    ∧ loadLiveData (.json (.num 3)) = freshLiveData
    ∧ decodeLiveDataInto freshLiveData (.obj [("requests", .num 5)]) = none
    ∧ loadLiveData (.json (.obj [("requests", .num 5)])) = freshLiveData :=
  ⟨rfl, (load_live_fail_open (.num 3)).2.2 rfl, rfl,
   (load_live_fail_open (.obj [("requests", .num 5)])).2.2 rfl⟩

/-- C10: for every request whose URL parses with a non-empty query, the
transient-store derivation (`NewTempStore`) sets `path` to the URL path
alone while `ComputeRequestFields` (used on session load and
`AddSession`) appends `?query`, so the two derived paths differ; for URLs
that fail to parse both derivations leave domain and path empty. -/
theorem path_derivation_divergence :
    (∀ rs : List Request, (NewTempStore rs).requests = rs.map tempComputeFields)
    ∧ (∀ (st : Store) (id note : String) (now : Int) (rs : List Request),
        (AddSession st id note now rs).sessions =
          st.sessions ++ [{ id := id, timestamp := now, note := note,
                            requests := rs.map ComputeRequestFields }])
    ∧ (∀ (r : Request) (u : URLParts), urlParse r.url = some u → u.rawQuery ≠ "" →
        (tempComputeFields r).domain = u.host
        ∧ (tempComputeFields r).path = u.path
        ∧ (ComputeRequestFields r).domain = u.host
        ∧ (ComputeRequestFields r).path = u.path ++ "?" ++ u.rawQuery
        ∧ (tempComputeFields r).path ≠ (ComputeRequestFields r).path)
    ∧ (∀ r : Request, urlParse r.url = none → r.domain = "" → r.path = "" →
        (tempComputeFields r).domain = "" ∧ (tempComputeFields r).path = ""
        ∧ (ComputeRequestFields r).domain = "" ∧ (ComputeRequestFields r).path = "") := by
  refine ⟨fun rs => rfl, fun st id note now rs => rfl,
          fun r u hu hq => ?_, fun r hu hd hp => ?_⟩
  · have htemp : (tempComputeFields r).path = u.path := by
      simp [tempComputeFields, hu]
    have hfull : (ComputeRequestFields r).path = u.path ++ "?" ++ u.rawQuery := by
      simp [ComputeRequestFields, hu, hq]
      rw [String.append_assoc]
    refine ⟨by simp [tempComputeFields, hu], htemp,
            by simp [ComputeRequestFields, hu], hfull, ?_⟩
    rw [htemp, hfull]
    intro heq
    have hlen := congrArg String.length heq
    rw [String.length_append, String.length_append] at hlen
    have hq1 : String.length "?" = 1 := rfl
    omega
  · simp [tempComputeFields, ComputeRequestFields, hu, hd, hp]

/-- Witness for `path_derivation_divergence` at a URL with a query and at
a URL with a control character (which `net/url.Parse` rejects). -/
theorem path_derivation_divergence_witness :
    urlParse "https://a.b/c?x=1" = some { host := "a.b", path := "/c", rawQuery := "x=1" }
    ∧ (tempComputeFields { url := "https://a.b/c?x=1" }).path
        ≠ (ComputeRequestFields { url := "https://a.b/c?x=1" }).path
    ∧ urlParse "ht\ttp://bad" = none
    ∧ (tempComputeFields { url := "ht\ttp://bad" }).path = ""
    ∧ (ComputeRequestFields { url := "ht\ttp://bad" }).domain = "" := by
  refine ⟨by decide, ?_, by decide, ?_, ?_⟩
  · exact (path_derivation_divergence.2.2.1 { url := "https://a.b/c?x=1" }
      { host := "a.b", path := "/c", rawQuery := "x=1" } (by decide) (by decide)).2.2.2.2
  · exact (path_derivation_divergence.2.2.2 { url := "ht\ttp://bad" }
      (by decide) rfl rfl).2.1
  · exact (path_derivation_divergence.2.2.2 { url := "ht\ttp://bad" }
      (by decide) rfl rfl).2.2.1

end RepCli
